import Mathlib

/-!
Verification of `tensorflow/compiler/xla/pjrt/utils.cc`.

The development shallowly embeds the three analyses of that file:
`GetShardedShape` (resolution of a sharding annotation against a shape),
`GetShardedProgramShapes` (scan of the entry computation for parameter and
root instructions) and `GetParametersThatMustBeDonated` (donation-set
computation over an input/output alias configuration).  Protocol-buffer
trees become inductive types, `StatusOr` becomes `Except`, and the external
tiling operation (`HloSharding::FromProto` + `HloSharding::TileShape`,
which lives outside this file) is a function parameter `tile`.
-/

namespace Xla

/-- Element types of array shapes.  `invalid` is the
`PRIMITIVE_TYPE_INVALID` sentinel of a default-constructed `Shape`;
`tupleTy` is the element type reported by tuple shapes. -/
inductive ElemTy where
  | invalid
  | pred
  | s32
  | f32
  | tupleTy
  deriving DecidableEq, Repr

mutual
/-- `xla::Shape`: an array leaf (element type, dimensions, optional
layout) or a tuple of child shapes. -/
inductive Shape where
  | array (elementType : ElemTy) (dims : List Nat) (layout : Option (List Nat))
  | tuple (children : ShapeList)
  deriving DecidableEq, Repr

/-- A list of shapes (the `tuple_shapes` field of a tuple shape). -/
inductive ShapeList where
  | nil
  | cons (hd : Shape) (tl : ShapeList)
  deriving DecidableEq, Repr
end

/-- `Shape::element_type()`: arrays report their own element type, tuple
shapes report `TUPLE`. -/
def Shape.elementType : Shape → ElemTy
  | .array t _ _ => t
  | .tuple _ => .tupleTy

/-- `Shape::tuple_shapes_size()` for the child list. -/
def ShapeList.length : ShapeList → Nat
  | .nil => 0
  | .cons _ tl => tl.length + 1

/-- View a `ShapeList` as a plain `List`. -/
def ShapeList.toList : ShapeList → List Shape
  | .nil => []
  | .cons hd tl => hd :: tl.toList

/-- Build a `ShapeList` from a plain `List`. -/
def ShapeList.ofList : List Shape → ShapeList
  | [] => .nil
  | hd :: tl => .cons hd (ShapeList.ofList tl)

/-- Leaf-level `OpSharding` descriptors (everything except `TUPLE`):
replication, single-device placement, or a tile assignment.  They are
consumed only by the external tiling operation. -/
inductive LeafDesc where
  | replicated
  | maximal (device : Nat)
  | other (tileAssignment : List Nat)
  deriving DecidableEq, Repr

mutual
/-- `xla::OpSharding`: either a `TUPLE` sharding with one child per tuple
element, or a leaf descriptor. -/
inductive OpSharding where
  | leafS (d : LeafDesc)
  | tupleS (children : OpShardingList)
  deriving DecidableEq, Repr

/-- The `tuple_shardings` field of a `TUPLE` sharding. -/
inductive OpShardingList where
  | nil
  | cons (hd : OpSharding) (tl : OpShardingList)
  deriving DecidableEq, Repr
end

/-- `OpSharding::tuple_shardings_size()`. -/
def OpShardingList.length : OpShardingList → Nat
  | .nil => 0
  | .cons _ tl => tl.length + 1

/-- View an `OpShardingList` as a plain `List`. -/
def OpShardingList.toList : OpShardingList → List OpSharding
  | .nil => []
  | .cons hd tl => hd :: tl.toList

/-- The error taxonomy of the file: each constructor corresponds to one of
the distinct `InvalidArgument` sites of `utils.cc`. -/
inductive Err where
  | shapeMismatch
  | arityMismatch (shardingArity shapeArity : Nat)
  | tilingError
  | invalidParameterIndex (got expected : Nat)
  | multipleRoots
  | missingParameter (i : Nat)
  | missingRoot
  | unexpectedParameterNumber (p : Nat)
  | indexOutOfRange (p n : Nat)
  deriving DecidableEq, Repr

instance {ε α : Type} [DecidableEq ε] [DecidableEq α] : DecidableEq (Except ε α) := fun
  | .ok a, .ok b => decidable_of_iff (a = b) (by simp)
  | .ok _, .error _ => .isFalse (by simp)
  | .error _, .ok _ => .isFalse (by simp)
  | .error e, .error f => decidable_of_iff (e = f) (by simp)

/-- The external tiling operation: `HloSharding::FromProto` followed by
`HloSharding::TileShape`, collapsed into one fallible function.  It is not
implemented in `utils.cc`, so the embedding takes it as a parameter. -/
abbrev TileFn := Shape → LeafDesc → Except Err Shape

mutual
/-- `GetShardedShape(const Shape&, const OpSharding&)` of `utils.cc`:
a `TUPLE` sharding requires a tuple shape of matching arity and resolves
children recursively in order; any other sharding is delegated to the
external tiling operation. -/
def GetShardedShape (tile : TileFn) : OpSharding → Shape → Except Err Shape
  | .leafS d, shape => tile shape d
  | .tupleS _, .array _ _ _ => .error .shapeMismatch
  | .tupleS ss, .tuple shapes =>
    if ss.length = shapes.length then
      (GetShardedShapeList tile ss shapes).map Shape.tuple
    else
      .error (.arityMismatch ss.length shapes.length)

/-- The `for (int i = 0; ...)` loop of the tuple branch: resolve each
(sharding, shape) child pair in order, short-circuiting on failure. -/
def GetShardedShapeList (tile : TileFn) : OpShardingList → ShapeList → Except Err ShapeList
  | .nil, _ => .ok .nil
  | .cons _ _, .nil => .ok .nil
  | .cons s ss, .cons sh shs =>
    match GetShardedShape tile s sh with
    | .error e => .error e
    | .ok r =>
      match GetShardedShapeList tile ss shs with
      | .error e => .error e
      | .ok rs => .ok (.cons r rs)
end

mutual
/-- `LayoutUtil::ClearLayout`: remove the layout of every array leaf. -/
def clearLayout : Shape → Shape
  | .array t d _ => .array t d none
  | .tuple cs => .tuple (clearLayoutList cs)

/-- `clearLayout` mapped over a child list. -/
def clearLayoutList : ShapeList → ShapeList
  | .nil => .nil
  | .cons hd tl => .cons (clearLayout hd) (clearLayoutList tl)
end

mutual
/-- A shape carries no physical layout at any array leaf. -/
def layoutFree : Shape → Bool
  | .array _ _ l => l.isNone
  | .tuple cs => layoutFreeList cs

/-- `layoutFree` over a child list. -/
def layoutFreeList : ShapeList → Bool
  | .nil => true
  | .cons hd tl => layoutFree hd && layoutFreeList tl
end

/-- `xla::HloInstructionProto`, restricted to the fields `utils.cc`
reads: id, opcode, shape, optional sharding, parameter number. -/
structure HloInstructionProto where
  id : Nat
  opcode : String
  shape : Shape
  sharding : Option OpSharding
  parameterNumber : Nat
  deriving DecidableEq, Repr

/-- `GetShardedShape(const HloInstructionProto&)` of `utils.cc`: resolve
the instruction's sharding against its shape when present, otherwise keep
the shape; always clear the layout of the result. -/
def GetShardedShapeOfInstr (tile : TileFn) (instr : HloInstructionProto) : Except Err Shape :=
  match instr.sharding with
  | some s =>
    match GetShardedShape tile s instr.shape with
    | .ok sh => .ok (clearLayout sh)
    | .error e => .error e
  | none => .ok (clearLayout instr.shape)

/-- `xla::HloComputationProto`, restricted to the fields `utils.cc`
reads: id, root id, instruction list. -/
structure HloComputationProto where
  id : Nat
  rootId : Nat
  instructions : List HloInstructionProto
  deriving DecidableEq, Repr

/-- `xla::XlaComputation` as consumed by `GetShardedProgramShapes`: the
computation list and entry id of its proto, plus the declared parameter
count of the program signature (the `parameters_size()` of the
`ProgramShape` returned by the external `GetProgramShape` accessor). -/
structure XlaComputation where
  computations : List HloComputationProto
  entryComputationId : Nat
  parametersSize : Nat
  deriving DecidableEq, Repr

/-- A default-constructed `xla::Shape`: element type
`PRIMITIVE_TYPE_INVALID`, no dimensions, no layout.  Used by the source as
the "slot unfilled" sentinel. -/
def defaultShape : Shape := .array .invalid [] none

/-- The opcode string of parameter instructions,
`HloOpcodeString(HloOpcode::kParameter)`. -/
def parameterOpcode : String := "parameter"

/-- The parameter block of the scan loop (`utils.cc` lines 87-95): on a
parameter instruction, reject an out-of-range parameter number, otherwise
resolve the sharded shape and store it in that slot. -/
def paramScan (tile : TileFn) (psize : Nat) (argShapes : List Shape)
    (instr : HloInstructionProto) : Except Err (List Shape) :=
  if instr.opcode = parameterOpcode then
    if psize ≤ instr.parameterNumber then
      .error (.invalidParameterIndex instr.parameterNumber psize)
    else
      match GetShardedShapeOfInstr tile instr with
      | .error e => .error e
      | .ok sh => .ok (argShapes.set instr.parameterNumber sh)
  else
    .ok argShapes

/-- One iteration of the instruction scan loop (`utils.cc` lines 86-102):
the parameter block followed by the root block.  The root block rejects a
second root-id instruction once the result slot holds a valid element
type, otherwise fills the result slot. -/
def scanInstruction (tile : TileFn) (psize rootId : Nat)
    (st : List Shape × Shape) (instr : HloInstructionProto) :
    Except Err (List Shape × Shape) :=
  match paramScan tile psize st.1 instr with
  | .error e => .error e
  | .ok argShapes =>
    if instr.id = rootId then
      if st.2.elementType ≠ .invalid then
        .error .multipleRoots
      else
        match GetShardedShapeOfInstr tile instr with
        | .error e => .error e
        | .ok sh => .ok (argShapes, sh)
    else
      .ok (argShapes, st.2)

/-- The post-scan check loop (`utils.cc` lines 104-108): index of the
first slot still holding the invalid sentinel, if any. -/
def firstInvalidIdx : List Shape → Option Nat
  | [] => none
  | s :: rest =>
    if s.elementType = .invalid then some 0
    else (firstInvalidIdx rest).map (· + 1)

/-- `GetShardedProgramShapes` of `utils.cc`: scan the instructions of
every computation whose id equals the entry computation id, then report
the first unfilled parameter slot or an unfilled result slot. -/
def GetShardedProgramShapes (tile : TileFn) (computation : XlaComputation) :
    Except Err (List Shape × Shape) :=
  match computation.computations.foldlM
      (fun st comp =>
        if comp.id = computation.entryComputationId then
          comp.instructions.foldlM
            (scanInstruction tile computation.parametersSize comp.rootId) st
        else .ok st)
      (List.replicate computation.parametersSize defaultShape, defaultShape) with
  | .error e => .error e
  | .ok (argShapes, resultShape) =>
    match firstInvalidIdx argShapes with
    | some i => .error (.missingParameter i)
    | none =>
      if resultShape.elementType = .invalid then .error .missingRoot
      else .ok (argShapes, resultShape)

/-- `HloInputOutputAliasConfig::Alias` together with the output index it
is registered under: an output location aliased to a parameter (and, for
tupled inputs, a path into the tuple parameter). -/
structure Alias where
  outputIndex : List Nat
  parameterNumber : Nat
  parameterIndex : List Nat
  deriving DecidableEq, Repr

/-- The body of the `ForEachAliasWithStatus` callback of
`GetParametersThatMustBeDonated` (`utils.cc` lines 134-164). -/
def donateAlias (tupleInputs : Bool) (numberOfParameters : Nat)
    (s : Finset ℕ) (a : Alias) : Except Err (Finset ℕ) :=
  if tupleInputs then
    if a.parameterNumber ≠ 0 then
      .error (.unexpectedParameterNumber a.parameterNumber)
    else
      match a.parameterIndex with
      | [] => .ok s
      | p :: _ =>
        if numberOfParameters ≤ p then
          .error (.indexOutOfRange p numberOfParameters)
        else
          .ok (insert p s)
  else
    if numberOfParameters ≤ a.parameterNumber then
      .error (.indexOutOfRange a.parameterNumber numberOfParameters)
    else
      .ok (insert a.parameterNumber s)

/-- `GetParametersThatMustBeDonated` of `utils.cc`, from the point where
`number_of_parameters` has been determined (the determination itself is
guarded by `CHECK` assertions on the entry computation and is passed in
here): fold the alias configuration, accumulating donated parameter
indices. -/
def GetParametersThatMustBeDonated (tupleInputs : Bool) (numberOfParameters : Nat)
    (config : List Alias) : Except Err (Finset ℕ) :=
  config.foldlM (donateAlias tupleInputs numberOfParameters) ∅

/-- Modelled from the spec: the external tiling operation of §6
(`HloSharding::FromProto` + `HloSharding::TileShape`, not part of
`utils.cc`).  Replicated and single-device shardings leave the shape
unchanged; a tile assignment divides each dimension by the corresponding
tile count, rounding up, and is rejected when malformed.  The spec does
not have the tiling operation touch the layout, so the layout is left as
it is. -/
def specTile : TileFn := fun shape d =>
  match d, shape with
  | .replicated, s => .ok s
  | .maximal _, s => .ok s
  | .other tdims, .array t dims l =>
    if tdims.length = dims.length ∧ tdims.all (fun c => c ≠ 0) then
      .ok (.array t (List.zipWith (fun a b => (a + b - 1) / b) dims tdims) l)
    else
      .error .tilingError
  | .other _, .tuple _ => .error .tilingError

/-- The sharded shape an instruction resolves to, defaulting to the
invalid sentinel when resolution fails (a convenience total function for
stating scan lemmas). -/
def resolvedShape (tile : TileFn) (instr : HloInstructionProto) : Shape :=
  match GetShardedShapeOfInstr tile instr with
  | .ok sh => sh
  | .error _ => defaultShape

/-- An instruction whose sharded shape resolves successfully to a shape
with a valid element type. -/
def resolvesValidly (tile : TileFn) (instr : HloInstructionProto) : Bool :=
  match GetShardedShapeOfInstr tile instr with
  | .ok sh => sh.elementType ≠ .invalid
  | .error _ => false

/-- The instruction is a parameter instruction. -/
def isParam (instr : HloInstructionProto) : Bool :=
  instr.opcode = parameterOpcode

/-- The instruction is a parameter instruction with parameter number `i`. -/
def isParamIdx (i : Nat) (instr : HloInstructionProto) : Bool :=
  isParam instr && instr.parameterNumber = i

/-- The last parameter instruction with parameter number `i` in a scan
order (the one whose resolved shape survives in slot `i`). -/
def lastParam (i : Nat) (l : List HloInstructionProto) : Option HloInstructionProto :=
  (l.filter (isParamIdx i)).getLast?

/-- Number of instructions claiming the root id. -/
def rootCount (rootId : Nat) (l : List HloInstructionProto) : Nat :=
  l.countP (fun p => p.id = rootId)

/-- The argument-slot array produced by a successful scan: each parameter
instruction overwrites its slot with its resolved shape, in scan order. -/
def scanArgsModel (tile : TileFn) (args : List Shape)
    (l : List HloInstructionProto) : List Shape :=
  l.foldl
    (fun args p =>
      if isParam p then args.set p.parameterNumber (resolvedShape tile p) else args)
    args

/-- The result slot produced by a successful scan: the resolved shape of
the first root-id instruction, if any. -/
def scanResModel (tile : TileFn) (rootId : Nat) (res : Shape)
    (l : List HloInstructionProto) : Shape :=
  match l.find? (fun p => p.id = rootId) with
  | some r => resolvedShape tile r
  | none => res

/-- The donation set the spec describes: for tupled inputs the first path
components of all non-empty-path aliases, for flat inputs the parameter
numbers appearing in the configuration, filtered to valid indices. -/
def donationSpec (tupleInputs : Bool) (numberOfParameters : Nat)
    (config : List Alias) : Finset ℕ :=
  match tupleInputs with
  | true => (config.filterMap (fun a => a.parameterIndex.head?)).toFinset
  | false =>
    ((config.map (fun a => a.parameterNumber)).filter
      (fun p => p < numberOfParameters)).toFinset

/-! ### Basic lemmas about the `Except` monad and the resolvers -/

theorem except_bind_ok {ε α β : Type} (a : α) (f : α → Except ε β) :
    (Except.ok a >>= f) = f a := rfl

theorem except_bind_error {ε α β : Type} (e : ε) (f : α → Except ε β) :
    ((Except.error e : Except ε α) >>= f) = Except.error e := rfl

/-- The child loop of the tuple branch is exactly a left-to-right,
short-circuiting monadic map over the zipped child lists. -/
theorem gssl_eq_mapM (tile : TileFn) :
    (ss : OpShardingList) → (shapes : ShapeList) →
    GetShardedShapeList tile ss shapes =
      (((ss.toList.zip shapes.toList).mapM
          fun pr => GetShardedShape tile pr.1 pr.2).map ShapeList.ofList)
  | .nil, shapes => rfl
  | .cons s ss, .nil => rfl
  | .cons s ss, .cons sh shs => by
    have ih := gssl_eq_mapM tile ss shs
    simp only [GetShardedShapeList, OpShardingList.toList, ShapeList.toList,
      List.zip_cons_cons, List.mapM_cons]
    cases h1 : GetShardedShape tile s sh with
    | error e => simp [h1, except_bind_error, Except.map]
    | ok r =>
      rw [ih]
      cases h2 : (ss.toList.zip shs.toList).mapM
          (fun pr => GetShardedShape tile pr.1 pr.2) with
      | error e => simp [h2, except_bind_error, except_bind_ok, Except.map]
      | ok rs => simp [h2, except_bind_ok, Except.map, ShapeList.ofList, pure, Except.pure]

mutual
/-- Clearing the layout leaves every leaf layout-free. -/
theorem clearLayout_layoutFree : (s : Shape) → layoutFree (clearLayout s) = true
  | .array _ _ _ => rfl
  | .tuple cs => by
    simp only [clearLayout, layoutFree]
    exact clearLayoutList_layoutFreeList cs

/-- List version of `clearLayout_layoutFree`. -/
theorem clearLayoutList_layoutFreeList :
    (l : ShapeList) → layoutFreeList (clearLayoutList l) = true
  | .nil => rfl
  | .cons hd tl => by
    simp only [clearLayoutList, layoutFreeList, Bool.and_eq_true]
    exact ⟨clearLayout_layoutFree hd, clearLayoutList_layoutFreeList tl⟩
end

/-! ### Lemmas about the donation fold -/

/-- Membership in the accumulated donation set after a successful flat
fold: the parameter numbers of the configuration, plus the seed. -/
theorem donate_fold_mem_flat (n : Nat) :
    ∀ (config : List Alias) (s₀ s : Finset ℕ),
      config.foldlM (donateAlias false n) s₀ = .ok s →
      ∀ p : ℕ, p ∈ s ↔ p ∈ s₀ ∨ ∃ a ∈ config, a.parameterNumber = p
  | [], s₀, s => by
    intro h p
    simp only [List.foldlM_nil] at h
    cases h
    simp
  | a :: config, s₀, s => by
    intro h p
    rw [List.foldlM_cons] at h
    cases hstep : donateAlias false n s₀ a with
    | error e => rw [hstep, except_bind_error] at h; cases h
    | ok s₁ =>
      rw [hstep, except_bind_ok] at h
      have ih := donate_fold_mem_flat n config s₁ s h p
      by_cases hle : n ≤ a.parameterNumber
      · simp [donateAlias, hle] at hstep
      · simp [donateAlias, hle] at hstep
        subst hstep
        rw [ih]
        simp only [Finset.mem_insert, List.mem_cons]
        constructor
        · rintro ((rfl | hp0) | ⟨b, hb, hbp⟩)
          · exact Or.inr ⟨a, Or.inl rfl, rfl⟩
          · exact Or.inl hp0
          · exact Or.inr ⟨b, Or.inr hb, hbp⟩
        · rintro (hp0 | ⟨b, (rfl | hb), hbp⟩)
          · exact Or.inl (Or.inr hp0)
          · exact Or.inl (Or.inl hbp.symm)
          · exact Or.inr ⟨b, hb, hbp⟩

/-- Membership in the accumulated donation set after a successful tupled
fold: the first path components of non-empty-path aliases, plus the
seed. -/
theorem donate_fold_mem_tupled (n : Nat) :
    ∀ (config : List Alias) (s₀ s : Finset ℕ),
      config.foldlM (donateAlias true n) s₀ = .ok s →
      ∀ p : ℕ, p ∈ s ↔ p ∈ s₀ ∨ ∃ a ∈ config, a.parameterIndex.head? = some p
  | [], s₀, s => by
    intro h p
    simp only [List.foldlM_nil] at h
    cases h
    simp
  | a :: config, s₀, s => by
    intro h p
    rw [List.foldlM_cons] at h
    cases hstep : donateAlias true n s₀ a with
    | error e => rw [hstep, except_bind_error] at h; cases h
    | ok s₁ =>
      rw [hstep, except_bind_ok] at h
      have ih := donate_fold_mem_tupled n config s₁ s h p
      by_cases hpn : a.parameterNumber = 0
      · cases hidx : a.parameterIndex with
        | nil =>
          simp [donateAlias, hpn, hidx] at hstep
          subst hstep
          rw [ih]
          simp only [List.mem_cons]
          constructor
          · rintro (hp0 | ⟨b, hb, hbp⟩)
            · exact Or.inl hp0
            · exact Or.inr ⟨b, Or.inr hb, hbp⟩
          · rintro (hp0 | ⟨b, (rfl | hb), hbp⟩)
            · exact Or.inl hp0
            · rw [hidx] at hbp; cases hbp
            · exact Or.inr ⟨b, hb, hbp⟩
        | cons q idx =>
          by_cases hle : n ≤ q
          · simp [donateAlias, hpn, hidx, hle] at hstep
          · simp [donateAlias, hpn, hidx, hle] at hstep
            subst hstep
            rw [ih]
            simp only [Finset.mem_insert, List.mem_cons]
            constructor
            · rintro ((rfl | hp0) | ⟨b, hb, hbp⟩)
              · exact Or.inr ⟨a, Or.inl rfl, by rw [hidx]; rfl⟩
              · exact Or.inl hp0
              · exact Or.inr ⟨b, Or.inr hb, hbp⟩
            · rintro (hp0 | ⟨b, (rfl | hb), hbp⟩)
              · exact Or.inl (Or.inr hp0)
              · rw [hidx] at hbp
                cases hbp
                exact Or.inl (Or.inl rfl)
              · exact Or.inr ⟨b, hb, hbp⟩
      · simp [donateAlias, hpn] at hstep

/-- Every index accumulated by a successful donation fold is either a
seed member or strictly below the parameter count. -/
theorem donate_fold_bound (tupleInputs : Bool) (n : Nat) :
    ∀ (config : List Alias) (s₀ s : Finset ℕ),
      config.foldlM (donateAlias tupleInputs n) s₀ = .ok s →
      ∀ p ∈ s, p ∈ s₀ ∨ p < n
  | [], s₀, s => by
    intro h p hp
    simp only [List.foldlM_nil] at h
    cases h
    exact Or.inl hp
  | a :: config, s₀, s => by
    intro h p hp
    rw [List.foldlM_cons] at h
    cases hstep : donateAlias tupleInputs n s₀ a with
    | error e => rw [hstep, except_bind_error] at h; cases h
    | ok s₁ =>
      rw [hstep, except_bind_ok] at h
      rcases donate_fold_bound tupleInputs n config s₁ s h p hp with hmem | hlt
      · cases tupleInputs with
        | false =>
          by_cases hle : n ≤ a.parameterNumber
          · simp [donateAlias, hle] at hstep
          · simp [donateAlias, hle] at hstep
            subst hstep
            rcases Finset.mem_insert.1 hmem with rfl | hmem0
            · exact Or.inr (Nat.lt_of_not_le hle)
            · exact Or.inl hmem0
        | true =>
          by_cases hpn : a.parameterNumber = 0
          · cases hidx : a.parameterIndex with
            | nil =>
              simp [donateAlias, hpn, hidx] at hstep
              subst hstep
              exact Or.inl hmem
            | cons q idx =>
              by_cases hle : n ≤ q
              · simp [donateAlias, hpn, hidx, hle] at hstep
              · simp [donateAlias, hpn, hidx, hle] at hstep
                subst hstep
                rcases Finset.mem_insert.1 hmem with rfl | hmem0
                · exact Or.inr (Nat.lt_of_not_le hle)
                · exact Or.inl hmem0
          · simp [donateAlias, hpn] at hstep
      · exact Or.inr hlt

/-- Any out-of-range parameter number in flat mode makes the whole fold
fail with an out-of-range error, wherever the alias sits. -/
theorem donate_flat_oob (n : Nat) :
    ∀ (config : List Alias) (s₀ : Finset ℕ) (a : Alias),
      a ∈ config → n ≤ a.parameterNumber →
      ∃ p, n ≤ p ∧
        config.foldlM (donateAlias false n) s₀ = .error (.indexOutOfRange p n)
  | [], _, a => by intro h; cases h
  | b :: config, s₀, a => by
    intro hmem hle
    rw [List.foldlM_cons]
    by_cases hb : n ≤ b.parameterNumber
    · refine ⟨b.parameterNumber, hb, ?_⟩
      have : donateAlias false n s₀ b = .error (.indexOutOfRange b.parameterNumber n) := by
        unfold donateAlias
        simp [hb]
      rw [this, except_bind_error]
    · have hstep : donateAlias false n s₀ b = .ok (insert b.parameterNumber s₀) := by
        unfold donateAlias
        simp [hb]
      rw [hstep, except_bind_ok]
      rcases List.mem_cons.1 hmem with rfl | hmem0
      · exact absurd hle hb
      · exact donate_flat_oob n config (insert b.parameterNumber s₀) a hmem0 hle

/-- Any out-of-range leading path component in tupled mode makes the
whole fold fail with an out-of-range error, provided no alias carries a
non-zero parameter number. -/
theorem donate_tupled_oob (n : Nat) :
    ∀ (config : List Alias) (s₀ : Finset ℕ) (a : Alias) (q : Nat),
      (∀ b ∈ config, b.parameterNumber = 0) →
      a ∈ config → a.parameterIndex.head? = some q → n ≤ q →
      ∃ p, n ≤ p ∧
        config.foldlM (donateAlias true n) s₀ = .error (.indexOutOfRange p n)
  | [], _, a, q => by intro _ h; cases h
  | b :: config, s₀, a, q => by
    intro hzero hmem hhead hle
    rw [List.foldlM_cons]
    have hbzero : b.parameterNumber = 0 := hzero b (List.mem_cons_self b config)
    cases hidx : b.parameterIndex with
    | nil =>
      have hstep : donateAlias true n s₀ b = .ok s₀ := by
        unfold donateAlias
        simp [hbzero, hidx]
      rw [hstep, except_bind_ok]
      rcases List.mem_cons.1 hmem with rfl | hmem0
      · rw [hidx] at hhead; cases hhead
      · exact donate_tupled_oob n config s₀ a q
          (fun c hc => hzero c (List.mem_cons_of_mem b hc)) hmem0 hhead hle
    | cons q0 idx =>
      by_cases hq0 : n ≤ q0
      · refine ⟨q0, hq0, ?_⟩
        have : donateAlias true n s₀ b = .error (.indexOutOfRange q0 n) := by
          unfold donateAlias
          simp [hbzero, hidx, hq0]
        rw [this, except_bind_error]
      · have hstep : donateAlias true n s₀ b = .ok (insert q0 s₀) := by
          unfold donateAlias
          simp [hbzero, hidx, hq0]
        rw [hstep, except_bind_ok]
        rcases List.mem_cons.1 hmem with rfl | hmem0
        · rw [hidx] at hhead
          cases hhead
          exact absurd hle hq0
        · exact donate_tupled_oob n config (insert q0 s₀) a q
            (fun c hc => hzero c (List.mem_cons_of_mem b hc)) hmem0 hhead hle

/-! ### Lemmas about the instruction scan -/

/-- Cons rule for the last matching parameter instruction. -/
theorem lastParam_cons (i : Nat) (q : HloInstructionProto) (l : List HloInstructionProto) :
    lastParam i (q :: l) =
      (if isParamIdx i q = true then
        (match lastParam i l with
         | some p => some p
         | none => some q)
      else lastParam i l) := by
  unfold lastParam
  by_cases hq : isParamIdx i q = true
  · rw [List.filter_cons_of_pos hq, if_pos hq]
    cases hl : (List.filter (isParamIdx i) l).getLast? with
    | none =>
      have hnil : List.filter (isParamIdx i) l = [] := List.getLast?_eq_none_iff.1 hl
      rw [hnil]
      rfl
    | some p =>
      cases hfl : List.filter (isParamIdx i) l with
      | nil => rw [hfl] at hl; cases hl
      | cons b t =>
        rw [hfl] at hl
        rw [List.getLast?_cons_cons, hl]
  · rw [List.filter_cons_of_neg hq, if_neg hq]

/-- A last matching parameter instruction is a matching member. -/
theorem lastParam_mem {i : Nat} {l : List HloInstructionProto} {p : HloInstructionProto}
    (h : lastParam i l = some p) : p ∈ l ∧ isParamIdx i p = true := by
  unfold lastParam at h
  have hmem := List.mem_of_getLast?_eq_some h
  exact ⟨(List.mem_filter.1 hmem).1, (List.mem_filter.1 hmem).2⟩

/-- No last matching parameter instruction exactly when no instruction
matches. -/
theorem lastParam_eq_none_iff {i : Nat} {l : List HloInstructionProto} :
    lastParam i l = none ↔ ∀ p ∈ l, isParamIdx i p = false := by
  unfold lastParam
  rw [List.getLast?_eq_none_iff, List.filter_eq_nil_iff]
  constructor
  · intro h p hpl
    have := h p hpl
    simpa using this
  · intro h p hpl
    simp [h p hpl]

/-- Existence of a last matching parameter instruction. -/
theorem lastParam_isSome_iff {i : Nat} {l : List HloInstructionProto} :
    (∃ p, lastParam i l = some p) ↔ ∃ p ∈ l, isParamIdx i p = true := by
  constructor
  · rintro ⟨p, hp⟩
    obtain ⟨h1, h2⟩ := lastParam_mem hp
    exact ⟨p, h1, h2⟩
  · rintro ⟨p, hpl, hpi⟩
    unfold lastParam
    have hne : List.filter (isParamIdx i) l ≠ [] := by
      simp only [ne_eq, List.filter_eq_nil_iff]
      intro hall
      have := hall p hpl
      simp [hpi] at this
    exact Option.isSome_iff_exists.1 (List.getLast?_isSome.2 hne)

/-- A validly resolving instruction resolves to `resolvedShape`, whose
element type is not the invalid sentinel. -/
theorem resolvesValidly_ok (tile : TileFn) (p : HloInstructionProto)
    (h : resolvesValidly tile p = true) :
    GetShardedShapeOfInstr tile p = .ok (resolvedShape tile p) ∧
      (resolvedShape tile p).elementType ≠ .invalid := by
  unfold resolvesValidly at h
  unfold resolvedShape
  cases hr : GetShardedShapeOfInstr tile p with
  | error e => rw [hr] at h; cases h
  | ok sh =>
    rw [hr] at h
    exact ⟨rfl, of_decide_eq_true h⟩

/-- The parameter block succeeds and writes the slot when the parameter
number is in range and resolution succeeds. -/
theorem paramScan_ok (tile : TileFn) (psize : Nat) (args : List Shape)
    (instr : HloInstructionProto)
    (hp : isParam instr = true → instr.parameterNumber < psize)
    (hr : isParam instr = true → resolvesValidly tile instr = true) :
    paramScan tile psize args instr =
      .ok (if isParam instr = true then
            args.set instr.parameterNumber (resolvedShape tile instr)
          else args) := by
  unfold paramScan
  by_cases hi : instr.opcode = parameterOpcode
  · have hip : isParam instr = true := by simp [isParam, hi]
    rw [if_pos hi, if_neg (Nat.not_le.2 (hp hip)), (resolvesValidly_ok tile instr (hr hip)).1,
      if_pos hip]
  · have hip : ¬ isParam instr = true := by simp [isParam, hi]
    rw [if_neg hi, if_neg hip]

/-- One scan step, successful case: the slot array and result slot are
updated as the models describe. -/
theorem scanInstruction_ok (tile : TileFn) (psize rootId : Nat)
    (args : List Shape) (res : Shape) (instr : HloInstructionProto)
    (hp : isParam instr = true → instr.parameterNumber < psize)
    (hr : (isParam instr = true ∨ instr.id = rootId) → resolvesValidly tile instr = true)
    (hres : instr.id = rootId → res.elementType = .invalid) :
    scanInstruction tile psize rootId (args, res) instr =
      .ok ((if isParam instr = true then
              args.set instr.parameterNumber (resolvedShape tile instr)
            else args),
           (if instr.id = rootId then resolvedShape tile instr else res)) := by
  unfold scanInstruction
  rw [paramScan_ok tile psize args instr hp (fun h => hr (Or.inl h))]
  by_cases hid : instr.id = rootId
  · have h1 := (resolvesValidly_ok tile instr (hr (Or.inr hid))).1
    simp [hid, hres hid, h1]
  · simp [hid]

/-- One scan step, duplicate root case: a root-id instruction hit while
the result slot already holds a valid element type fails with the
multiple-roots error. -/
theorem scanInstruction_multiroot (tile : TileFn) (psize rootId : Nat)
    (args : List Shape) (res : Shape) (instr : HloInstructionProto)
    (hp : isParam instr = true → instr.parameterNumber < psize)
    (hr : isParam instr = true → resolvesValidly tile instr = true)
    (hid : instr.id = rootId) (hres : res.elementType ≠ .invalid) :
    scanInstruction tile psize rootId (args, res) instr = .error .multipleRoots := by
  unfold scanInstruction
  rw [paramScan_ok tile psize args instr hp hr]
  simp [hid, hres]

/-- The scan fold succeeds and computes the modelled slot array and
result slot, provided parameter numbers are in range, every parameter or
root instruction resolves validly, and at most one root-id instruction is
available for a still-unfilled result slot. -/
theorem scan_fold_ok (tile : TileFn) (psize rootId : Nat) :
    ∀ (l : List HloInstructionProto) (args : List Shape) (res : Shape),
      (∀ p ∈ l, isParam p = true → p.parameterNumber < psize) →
      (∀ p ∈ l, (isParam p = true ∨ p.id = rootId) → resolvesValidly tile p = true) →
      rootCount rootId l + (if res.elementType = .invalid then 0 else 1) ≤ 1 →
      l.foldlM (scanInstruction tile psize rootId) (args, res) =
        .ok (scanArgsModel tile args l, scanResModel tile rootId res l)
  | [], args, res => by
    intro _ _ _
    rfl
  | q :: l, args, res => by
    intro hp hr hcount
    rw [List.foldlM_cons]
    have hcons : rootCount rootId (q :: l) =
        rootCount rootId l + (if q.id = rootId then 1 else 0) := by
      unfold rootCount
      rw [List.countP_cons]
      by_cases hid : q.id = rootId <;> simp [hid]
    by_cases hid : q.id = rootId
    · have hresinv : res.elementType = .invalid := by
        by_contra hne
        rw [if_neg hne, hcons, if_pos hid] at hcount
        omega
      rw [scanInstruction_ok tile psize rootId args res q (hp q (List.mem_cons_self q l))
        (hr q (List.mem_cons_self q l)) (fun _ => hresinv), except_bind_ok, if_pos hid]
      have hvalid := (resolvesValidly_ok tile q (hr q (List.mem_cons_self q l) (Or.inr hid))).2
      have hzero : rootCount rootId l = 0 := by
        rw [if_pos hresinv, hcons, if_pos hid] at hcount
        omega
      rw [scan_fold_ok tile psize rootId l _ _
        (fun p hpl => hp p (List.mem_cons_of_mem q hpl))
        (fun p hpl => hr p (List.mem_cons_of_mem q hpl))
        (by rw [if_neg hvalid]; omega)]
      have hfind : l.find? (fun p => p.id = rootId) = none := by
        rw [List.find?_eq_none]
        intro x hx hcon
        have : 0 < rootCount rootId l := by
          unfold rootCount
          exact List.countP_pos_iff.2 ⟨x, hx, hcon⟩
        omega
      have hfind2 : List.find? (fun p => decide (p.id = rootId)) (q :: l) = some q :=
        List.find?_cons_of_pos _ (by simpa using hid)
      simp [scanArgsModel, scanResModel, hfind, hfind2]
    · rw [scanInstruction_ok tile psize rootId args res q (hp q (List.mem_cons_self q l))
        (hr q (List.mem_cons_self q l)) (fun hcon => absurd hcon hid), except_bind_ok,
        if_neg hid]
      rw [scan_fold_ok tile psize rootId l _ _
        (fun p hpl => hp p (List.mem_cons_of_mem q hpl))
        (fun p hpl => hr p (List.mem_cons_of_mem q hpl))
        (by rw [hcons, if_neg hid] at hcount; omega)]
      have hfind : List.find? (fun p => decide (p.id = rootId)) (q :: l) =
          List.find? (fun p => decide (p.id = rootId)) l :=
        List.find?_cons_of_neg _ (by simpa using hid)
      simp [scanArgsModel, scanResModel, hfind]

/-- The scan fold fails with the multiple-roots error as soon as two
root-id instructions compete for one result slot. -/
theorem scan_fold_multiroot (tile : TileFn) (psize rootId : Nat) :
    ∀ (l : List HloInstructionProto) (args : List Shape) (res : Shape),
      (∀ p ∈ l, isParam p = true → p.parameterNumber < psize) →
      (∀ p ∈ l, (isParam p = true ∨ p.id = rootId) → resolvesValidly tile p = true) →
      2 ≤ rootCount rootId l + (if res.elementType = .invalid then 0 else 1) →
      l.foldlM (scanInstruction tile psize rootId) (args, res) = .error .multipleRoots
  | [], args, res => by
    intro _ _ hc
    exfalso
    have : rootCount rootId ([] : List HloInstructionProto) = 0 := rfl
    rw [this] at hc
    by_cases hres : res.elementType = .invalid
    · rw [if_pos hres] at hc; omega
    · rw [if_neg hres] at hc; omega
  | q :: l, args, res => by
    intro hp hr hc
    rw [List.foldlM_cons]
    have hcons : rootCount rootId (q :: l) =
        rootCount rootId l + (if q.id = rootId then 1 else 0) := by
      unfold rootCount
      rw [List.countP_cons]
      by_cases hid : q.id = rootId <;> simp [hid]
    by_cases hid : q.id = rootId
    · by_cases hresinv : res.elementType = .invalid
      · rw [scanInstruction_ok tile psize rootId args res q (hp q (List.mem_cons_self q l))
          (hr q (List.mem_cons_self q l)) (fun _ => hresinv), except_bind_ok, if_pos hid]
        have hvalid := (resolvesValidly_ok tile q (hr q (List.mem_cons_self q l) (Or.inr hid))).2
        apply scan_fold_multiroot tile psize rootId l _ _
          (fun p hpl => hp p (List.mem_cons_of_mem q hpl))
          (fun p hpl => hr p (List.mem_cons_of_mem q hpl))
        rw [if_neg hvalid]
        rw [if_pos hresinv, hcons, if_pos hid] at hc
        omega
      · rw [scanInstruction_multiroot tile psize rootId args res q
          (hp q (List.mem_cons_self q l)) (fun h => hr q (List.mem_cons_self q l) (Or.inl h))
          hid hresinv, except_bind_error]
    · rw [scanInstruction_ok tile psize rootId args res q (hp q (List.mem_cons_self q l))
        (hr q (List.mem_cons_self q l)) (fun hcon => absurd hcon hid), except_bind_ok,
        if_neg hid]
      apply scan_fold_multiroot tile psize rootId l _ _
        (fun p hpl => hp p (List.mem_cons_of_mem q hpl))
        (fun p hpl => hr p (List.mem_cons_of_mem q hpl))
      rw [hcons, if_neg hid] at hc
      omega

/-- The modelled scan preserves the slot array's length. -/
theorem scanArgsModel_length (tile : TileFn) :
    ∀ (l : List HloInstructionProto) (args : List Shape),
      (scanArgsModel tile args l).length = args.length
  | [], _ => rfl
  | q :: l, args => by
    have ih := scanArgsModel_length tile l
      (if isParam q = true then args.set q.parameterNumber (resolvedShape tile q) else args)
    simp only [scanArgsModel, List.foldl_cons] at ih ⊢
    rw [ih]
    by_cases hq : isParam q = true <;> simp [hq]

/-- Slot contents after the modelled scan: the resolved shape of the last
parameter instruction with that index, or the initial content. -/
theorem scanArgsModel_get (tile : TileFn) :
    ∀ (l : List HloInstructionProto) (args : List Shape) (i : Nat),
      (∀ p ∈ l, isParam p = true → p.parameterNumber < args.length) →
      (scanArgsModel tile args l).get? i =
        (match lastParam i l with
         | some p => some (resolvedShape tile p)
         | none => args.get? i)
  | [], args, i => by
    intro _
    simp [scanArgsModel, lastParam]
  | q :: l, args, i => by
    intro hp
    have hstep : scanArgsModel tile args (q :: l) =
        scanArgsModel tile
          (if isParam q = true then args.set q.parameterNumber (resolvedShape tile q)
           else args) l := by
      simp [scanArgsModel]
    have hlen : (if isParam q = true then
        args.set q.parameterNumber (resolvedShape tile q) else args).length = args.length := by
      by_cases hq : isParam q = true <;> simp [hq]
    rw [hstep, scanArgsModel_get tile l _ i
      (fun p hpl hpp => by rw [hlen]; exact hp p (List.mem_cons_of_mem q hpl) hpp)]
    rw [lastParam_cons]
    by_cases hq : isParamIdx i q = true
    · rw [if_pos hq]
      cases hlp : lastParam i l with
      | some p => rfl
      | none =>
        have hq' := hq
        unfold isParamIdx at hq'
        rw [Bool.and_eq_true] at hq'
        obtain ⟨hqparam, hqi0⟩ := hq'
        have hqi : q.parameterNumber = i := by simpa using hqi0
        rw [if_pos hqparam]
        have hlt : q.parameterNumber < args.length :=
          hp q (List.mem_cons_self q l) hqparam
        rw [← hqi, List.get?_set_eq_of_lt _ hlt]
    · rw [if_neg hq]
      cases hlp : lastParam i l with
      | some p => rfl
      | none =>
        by_cases hqparam : isParam q = true
        · rw [if_pos hqparam]
          have hqi : q.parameterNumber ≠ i := by
            intro hcon
            apply hq
            unfold isParamIdx
            rw [Bool.and_eq_true]
            exact ⟨hqparam, by simpa using hcon⟩
          exact List.get?_set_ne _ args hqi
        · rw [if_neg hqparam]

/-! ### Claim C1 -/

/-- C1: for a tuple shape and a tuple sharding with the same number of
children, `GetShardedShape` is the tuple assembled from resolving each
child pair, in order, with any child failure short-circuiting and
propagating that child's error (the left-to-right semantics of `mapM`
over the `Except` monad). -/
theorem tuple_resolution_structural (tile : TileFn) (ss : OpShardingList)
    (shapes : ShapeList) (h : ss.length = shapes.length) :
    GetShardedShape tile (.tupleS ss) (.tuple shapes) =
      (((ss.toList.zip shapes.toList).mapM
          fun pr => GetShardedShape tile pr.1 pr.2).map
        fun rs => Shape.tuple (ShapeList.ofList rs)) := by
  have hl := gssl_eq_mapM tile ss shapes
  simp only [GetShardedShape, if_pos h, hl]
  cases hx : (ss.toList.zip shapes.toList).mapM
      (fun pr => GetShardedShape tile pr.1 pr.2) with
  | error e => simp [Except.map]
  | ok rs => simp [Except.map]

/-- Witness for C1 at a concrete two-child tuple. -/
theorem tuple_resolution_structural_witness :
    (OpShardingList.cons (.leafS .replicated) (.cons (.leafS .replicated) .nil)).length =
      (ShapeList.cons (Shape.array .f32 [8, 4] none)
        (.cons (Shape.array .f32 [2] none) .nil)).length ∧
    GetShardedShape specTile
        (.tupleS (.cons (.leafS .replicated) (.cons (.leafS .replicated) .nil)))
        (.tuple (.cons (.array .f32 [8, 4] none) (.cons (.array .f32 [2] none) .nil))) =
      ((((OpShardingList.cons (.leafS .replicated)
            (.cons (.leafS .replicated) .nil)).toList.zip
          (ShapeList.cons (Shape.array .f32 [8, 4] none)
            (.cons (Shape.array .f32 [2] none) .nil)).toList).mapM
          fun pr => GetShardedShape specTile pr.1 pr.2).map
        fun rs => Shape.tuple (ShapeList.ofList rs)) :=
  ⟨by decide, tuple_resolution_structural specTile _ _ (by decide)⟩

/-! ### Claim C3 -/

/-- C3: a tuple sharding against a non-tuple shape always fails with the
shape-mismatch error, and a tuple sharding whose child count differs from
the tuple shape's child count always fails with the arity-mismatch
error. -/
theorem rejection_law :
    (∀ (tile : TileFn) (ss : OpShardingList) (t : ElemTy) (dims : List Nat)
        (lay : Option (List Nat)),
      GetShardedShape tile (.tupleS ss) (.array t dims lay) = .error .shapeMismatch) ∧
    (∀ (tile : TileFn) (ss : OpShardingList) (shapes : ShapeList),
      ss.length ≠ shapes.length →
      GetShardedShape tile (.tupleS ss) (.tuple shapes) =
        .error (.arityMismatch ss.length shapes.length)) := by
  constructor
  · intro tile ss t dims lay
    rfl
  · intro tile ss shapes h
    simp [GetShardedShape, h]

/-- Witness for C3 at concrete mismatched inputs. -/
theorem rejection_law_witness :
    GetShardedShape specTile (.tupleS .nil) (.array .f32 [2] none) =
      .error .shapeMismatch ∧
    OpShardingList.nil.length ≠ (ShapeList.cons (Shape.array .f32 [2] none) .nil).length ∧
    GetShardedShape specTile (.tupleS .nil)
        (.tuple (.cons (.array .f32 [2] none) .nil)) =
      .error (.arityMismatch OpShardingList.nil.length
        (ShapeList.cons (Shape.array .f32 [2] none) .nil).length) :=
  ⟨rejection_law.1 specTile .nil .f32 [2] none, by decide,
    rejection_law.2 specTile .nil _ (by decide)⟩

/-! ### Claim C6 -/

/-- C6 counterexample: the plain shape-level resolver does not clear
layouts.  Resolving a laid-out leaf shape against a replicated leaf
sharding returns the shape with its layout intact, so the resolved shape
is not layout-free; only the instruction-level wrapper clears layouts. -/
theorem resolve_layout_counterexample :
    GetShardedShape specTile (.leafS .replicated) (.array .f32 [2] (some [0])) =
      .ok (.array .f32 [2] (some [0])) ∧
    layoutFree (.array .f32 [2] (some [0])) = false := by decide

/-- C6 amended: every shape returned by the instruction-level resolver
`GetShardedShapeOfInstr` carries no layout at any leaf (the wrapper ends
with `LayoutUtil::ClearLayout`); the shape-level resolver makes no such
guarantee. -/
theorem instruction_resolution_layout_free (tile : TileFn)
    (instr : HloInstructionProto) (sh : Shape)
    (h : GetShardedShapeOfInstr tile instr = .ok sh) :
    layoutFree sh = true := by
  cases hs : instr.sharding with
  | none =>
    simp only [GetShardedShapeOfInstr, hs, Except.ok.injEq] at h
    subst h
    exact clearLayout_layoutFree _
  | some s =>
    simp only [GetShardedShapeOfInstr, hs] at h
    cases hr : GetShardedShape tile s instr.shape with
    | error e => rw [hr] at h; cases h
    | ok sh0 =>
      rw [hr] at h
      cases h
      exact clearLayout_layoutFree _

/-- Witness for the amended C6 at a concrete laid-out instruction. -/
theorem instruction_resolution_layout_free_witness :
    GetShardedShapeOfInstr specTile
        ⟨3, "tanh", .array .f32 [2] (some [0]), none, 0⟩ =
      .ok (.array .f32 [2] none) ∧
    layoutFree (.array .f32 [2] none) = true :=
  ⟨by decide,
    instruction_resolution_layout_free specTile
      ⟨3, "tanh", .array .f32 [2] (some [0]), none, 0⟩ _ (by decide)⟩

/-! ### Claim C2 -/

/-- C2: when the donation analysis succeeds, the returned set is exactly
the one the spec describes — for flat inputs the parameter numbers of the
configuration filtered to valid indices, for tupled inputs the first path
components of all non-empty-path aliases (an empty-path alias contributes
nothing). -/
theorem donation_soundness (tupleInputs : Bool) (n : Nat) (config : List Alias)
    (s : Finset ℕ)
    (h : GetParametersThatMustBeDonated tupleInputs n config = .ok s) :
    s = donationSpec tupleInputs n config := by
  ext p
  have hb := donate_fold_bound tupleInputs n config ∅ s h
  cases tupleInputs with
  | true =>
    have hm := donate_fold_mem_tupled n config ∅ s h p
    simp only [donationSpec, List.mem_toFinset, List.mem_filterMap]
    rw [hm]
    simp
  | false =>
    have hm := donate_fold_mem_flat n config ∅ s h p
    simp only [donationSpec, List.mem_toFinset, List.mem_filter, List.mem_map,
      decide_eq_true_eq]
    constructor
    · intro hp
      rcases hb p hp with hemp | hlt
      · cases Finset.not_mem_empty p hemp
      · refine ⟨?_, hlt⟩
        rcases (hm.1 hp) with hemp | ⟨a, ha, hap⟩
        · cases Finset.not_mem_empty p hemp
        · exact ⟨a, ha, hap⟩
    · rintro ⟨⟨a, ha, hap⟩, _⟩
      exact hm.2 (Or.inr ⟨a, ha, hap⟩)

/-- Witness for C2: the spec's end-to-end tupled example (one aliased
sub-parameter, one whole-tuple alias). -/
theorem donation_soundness_witness :
    GetParametersThatMustBeDonated true 3 [⟨[0], 0, [1]⟩, ⟨[1], 0, []⟩] =
      .ok {1} ∧
    ({1} : Finset ℕ) = donationSpec true 3 [⟨[0], 0, [1]⟩, ⟨[1], 0, []⟩] :=
  ⟨by decide, donation_soundness true 3 _ {1} (by decide)⟩

/-! ### Claim C8 -/

/-- C8 counterexample: in tupled mode an alias whose first path component
is out of range but whose parameter number is non-zero fails with the
unexpected-parameter-number error, not the index-out-of-range error the
claim demands. -/
theorem bounds_law_counterexample :
    GetParametersThatMustBeDonated true 1 [⟨[], 1, [5]⟩] =
      .error (.unexpectedParameterNumber 1) ∧
    GetParametersThatMustBeDonated true 1 [⟨[], 1, [5]⟩] ≠
      .error (.indexOutOfRange 5 1) := by decide

/-- C8 amended: in flat mode any alias with an out-of-range parameter
number makes the analysis fail with an index-out-of-range error,
regardless of its position; in tupled mode the same holds for an
out-of-range first path component provided every alias in the
configuration carries parameter number 0 (otherwise the non-zero
parameter number check can fire first). -/
theorem bounds_law_amended :
    (∀ (n : Nat) (config : List Alias) (a : Alias),
      a ∈ config → n ≤ a.parameterNumber →
      ∃ p, n ≤ p ∧
        GetParametersThatMustBeDonated false n config =
          .error (.indexOutOfRange p n)) ∧
    (∀ (n : Nat) (config : List Alias) (a : Alias) (q : Nat),
      (∀ b ∈ config, b.parameterNumber = 0) →
      a ∈ config → a.parameterIndex.head? = some q → n ≤ q →
      ∃ p, n ≤ p ∧
        GetParametersThatMustBeDonated true n config =
          .error (.indexOutOfRange p n)) :=
  ⟨fun n config a hmem hle => donate_flat_oob n config ∅ a hmem hle,
    fun n config a q hzero hmem hhead hle =>
      donate_tupled_oob n config ∅ a q hzero hmem hhead hle⟩

/-- Witness for the amended C8 in both modes. -/
theorem bounds_law_amended_witness :
    (∃ p, 2 ≤ p ∧
      GetParametersThatMustBeDonated false 2 [⟨[], 5, []⟩] =
        .error (.indexOutOfRange p 2)) ∧
    (∃ p, 2 ≤ p ∧
      GetParametersThatMustBeDonated true 2 [⟨[], 0, [7]⟩] =
        .error (.indexOutOfRange p 2)) :=
  ⟨bounds_law_amended.1 2 [⟨[], 5, []⟩] ⟨[], 5, []⟩ (by decide) (by decide),
    bounds_law_amended.2 2 [⟨[], 0, [7]⟩] ⟨[], 0, [7]⟩ 7 (by decide) (by decide)
      (by decide) (by decide)⟩

/-! ### Lemmas about the computation-level fold and post-scan checks -/

/-- Computations whose id differs from the entry id are all skipped. -/
theorem comps_fold_skip (tile : TileFn) (psize entryId : Nat) :
    ∀ (comps : List HloComputationProto) (st : List Shape × Shape),
      (∀ c ∈ comps, c.id ≠ entryId) →
      comps.foldlM
        (fun st comp =>
          if comp.id = entryId then
            comp.instructions.foldlM (scanInstruction tile psize comp.rootId) st
          else .ok st) st = .ok st
  | [], st => by intro _; rfl
  | c :: comps, st => by
    intro h
    rw [List.foldlM_cons, if_neg (h c (List.mem_cons_self c comps)), except_bind_ok]
    exact comps_fold_skip tile psize entryId comps st
      (fun d hd => h d (List.mem_cons_of_mem c hd))

/-- When exactly one computation carries the entry id, the fold over all
computations is the instruction fold of that computation. -/
theorem comps_fold_single (tile : TileFn) (psize entryId : Nat) :
    ∀ (comps : List HloComputationProto) (st : List Shape × Shape)
      (comp : HloComputationProto),
      comps.filter (fun c => c.id = entryId) = [comp] →
      comps.foldlM
        (fun st comp =>
          if comp.id = entryId then
            comp.instructions.foldlM (scanInstruction tile psize comp.rootId) st
          else .ok st) st =
        comp.instructions.foldlM (scanInstruction tile psize comp.rootId) st
  | [], st, comp => by intro h; cases h
  | c :: comps, st, comp => by
    intro h
    rw [List.foldlM_cons]
    by_cases hc : c.id = entryId
    · rw [List.filter_cons_of_pos (by simpa using hc)] at h
      injection h with h1 h2
      subst h1
      rw [if_pos hc]
      have hnone : ∀ d ∈ comps, d.id ≠ entryId := by
        intro d hd
        have := List.filter_eq_nil_iff.1 h2 d hd
        simpa using this
      cases hx : c.instructions.foldlM (scanInstruction tile psize c.rootId) st with
      | error e => exact except_bind_error e _
      | ok st' =>
        rw [except_bind_ok]
        exact comps_fold_skip tile psize entryId comps st' hnone
    · rw [List.filter_cons_of_neg (by simpa using hc)] at h
      rw [if_neg hc, except_bind_ok]
      exact comps_fold_single tile psize entryId comps st comp h

/-- `GetShardedProgramShapes` through the unique entry computation: the
program analysis is the instruction fold followed by the post-scan
checks. -/
theorem program_result_eq (tile : TileFn) (prog : XlaComputation)
    (comp : HloComputationProto)
    (hone : prog.computations.filter (fun c => c.id = prog.entryComputationId) = [comp]) :
    GetShardedProgramShapes tile prog =
      (match comp.instructions.foldlM
          (scanInstruction tile prog.parametersSize comp.rootId)
          (List.replicate prog.parametersSize defaultShape, defaultShape) with
       | .error e => .error e
       | .ok (argShapes, resultShape) =>
         match firstInvalidIdx argShapes with
         | some i => .error (.missingParameter i)
         | none =>
           if resultShape.elementType = .invalid then .error .missingRoot
           else .ok (argShapes, resultShape)) := by
  unfold GetShardedProgramShapes
  rw [comps_fold_single tile prog.parametersSize prog.entryComputationId
    prog.computations _ comp hone]

/-- Characterization of the first invalid slot index. -/
theorem firstInvalidIdx_eq_some_iff :
    ∀ (l : List Shape) (i : Nat),
      firstInvalidIdx l = some i ↔
        ((∃ s, l.get? i = some s ∧ s.elementType = .invalid) ∧
          ∀ j < i, ∀ t, l.get? j = some t → t.elementType ≠ .invalid)
  | [], i => by simp [firstInvalidIdx]
  | s :: l, i => by
    by_cases hs : s.elementType = .invalid
    · simp only [firstInvalidIdx, if_pos hs]
      constructor
      · intro h
        injection h with h
        subst h
        exact ⟨⟨s, rfl, hs⟩, by omega⟩
      · rintro ⟨⟨t, ht, htinv⟩, hbefore⟩
        cases i with
        | zero => rfl
        | succ i' =>
          exact absurd hs (hbefore 0 (Nat.succ_pos i') s rfl)
    · simp only [firstInvalidIdx, if_neg hs]
      cases i with
      | zero =>
        constructor
        · intro h
          rw [Option.map_eq_some'] at h
          obtain ⟨a, _, ha⟩ := h
          omega
        · rintro ⟨⟨t, ht, htinv⟩, _⟩
          rw [List.get?_cons_zero] at ht
          injection ht with ht
          subst ht
          exact absurd htinv hs
      | succ i' =>
        rw [Option.map_eq_some']
        have ih := firstInvalidIdx_eq_some_iff l i'
        constructor
        · rintro ⟨a, ha, haeq⟩
          have haa : a = i' := by omega
          subst haa
          obtain ⟨⟨t, ht, htv⟩, hb⟩ := ih.1 ha
          refine ⟨⟨t, by simpa using ht, htv⟩, ?_⟩
          intro j hj u hu
          cases j with
          | zero =>
            rw [List.get?_cons_zero] at hu
            injection hu with hu
            subst hu
            exact hs
          | succ j' =>
            exact hb j' (by omega) u (by simpa using hu)
        · rintro ⟨⟨t, ht, htv⟩, hb⟩
          refine ⟨i', ih.2 ⟨⟨t, by simpa using ht, htv⟩, ?_⟩, rfl⟩
          intro j hj u hu
          exact hb (j + 1) (by omega) u (by simpa using hu)

/-- Two distinct members both satisfying a predicate force a count of at
least two. -/
theorem two_le_countP {α : Type} (pred : α → Bool) :
    ∀ (l : List α) (a b : α), a ∈ l → b ∈ l → a ≠ b →
      pred a = true → pred b = true → 2 ≤ l.countP pred
  | [], a, b => by intro h; cases h
  | x :: l, a, b => by
    intro ha hb hne hpa hpb
    rcases List.mem_cons.1 ha with rfl | ha'
    · have hb' : b ∈ l := by
        rcases List.mem_cons.1 hb with rfl | hmem
        · exact absurd rfl hne
        · exact hmem
      rw [List.countP_cons, if_pos hpa]
      have : 0 < l.countP pred := List.countP_pos_iff.2 ⟨b, hb', hpb⟩
      omega
    · rcases List.mem_cons.1 hb with rfl | hb'
      · rw [List.countP_cons, if_pos hpb]
        have : 0 < l.countP pred := List.countP_pos_iff.2 ⟨a, ha', hpa⟩
        omega
      · have := two_le_countP pred l a b ha' hb' hne hpa hpb
        rw [List.countP_cons]
        omega

/-- With pairwise-distinct parameter indices, at most one instruction
matches a given parameter index. -/
theorem length_filter_paramIdx_le_one (l : List HloInstructionProto)
    (hnodup : ((l.filter isParam).map (fun p => p.parameterNumber)).Nodup)
    (i : Nat) : (l.filter (isParamIdx i)).length ≤ 1 := by
  have hff : l.filter (isParamIdx i) =
      (l.filter isParam).filter (fun p => p.parameterNumber = i) := by
    rw [List.filter_filter]
    apply List.filter_congr
    intro a _
    unfold isParamIdx
    rw [Bool.and_comm]
  cases hfl : l.filter (isParamIdx i) with
  | nil => simp
  | cons a rest =>
    cases rest with
    | nil => simp
    | cons b t =>
      exfalso
      rw [hff] at hfl
      have hsub : (a :: b :: t).Sublist (l.filter isParam) := by
        rw [← hfl]
        exact List.filter_sublist _
      have hmap : ((a :: b :: t).map (fun p => p.parameterNumber)).Nodup :=
        (hsub.map (fun p => p.parameterNumber)).nodup hnodup
      have hai : a.parameterNumber = i := by
        have : a ∈ (l.filter isParam).filter (fun p => p.parameterNumber = i) := by
          rw [hfl]; exact List.mem_cons_self a (b :: t)
        simpa using (List.mem_filter.1 this).2
      have hbi : b.parameterNumber = i := by
        have : b ∈ (l.filter isParam).filter (fun p => p.parameterNumber = i) := by
          rw [hfl]; exact List.mem_cons_of_mem a (List.mem_cons_self b t)
        simpa using (List.mem_filter.1 this).2
      rw [List.map_cons, List.map_cons, hai, hbi] at hmap
      rcases List.nodup_cons.1 hmap with ⟨hnotmem, _⟩
      exact hnotmem (List.mem_cons_self i _)

/-- Permutations preserve the last matching parameter instruction when
parameter indices are pairwise distinct. -/
theorem lastParam_perm_eq (l1 l2 : List HloInstructionProto)
    (hperm : l1.Perm l2)
    (hnodup : ((l1.filter isParam).map (fun p => p.parameterNumber)).Nodup)
    (i : Nat) : lastParam i l1 = lastParam i l2 := by
  have hpf : (l1.filter (isParamIdx i)).Perm (l2.filter (isParamIdx i)) :=
    hperm.filter _
  have hle : (l1.filter (isParamIdx i)).length ≤ 1 :=
    length_filter_paramIdx_le_one l1 hnodup i
  unfold lastParam
  cases hfl : l1.filter (isParamIdx i) with
  | nil =>
    rw [hfl] at hpf
    rw [(hpf.symm).eq_nil]
  | cons a rest =>
    cases rest with
    | nil =>
      rw [hfl] at hpf
      rw [List.perm_singleton.1 hpf.symm]
    | cons b t =>
      rw [hfl] at hle
      simp at hle

/-! ### Claim C10 -/

/-- C10: when no computation carries the entry id, the scan is empty and
no dedicated entry-not-found error exists: the analysis fails with
`missingParameter 0` for a positive declared parameter count and with
`missingRoot` for a zero count. -/
theorem missing_entry_behavior (tile : TileFn) (prog : XlaComputation)
    (h : ∀ c ∈ prog.computations, c.id ≠ prog.entryComputationId) :
    GetShardedProgramShapes tile prog =
      .error (if prog.parametersSize = 0 then Err.missingRoot
              else Err.missingParameter 0) := by
  unfold GetShardedProgramShapes
  rw [comps_fold_skip tile prog.parametersSize prog.entryComputationId
    prog.computations _ h]
  cases hn : prog.parametersSize with
  | zero => rfl
  | succ n => rfl

/-- Witness for C10 at a concrete program with a mismatched entry id. -/
theorem missing_entry_behavior_witness :
    (∀ c ∈ ([⟨4, 9, []⟩] : List HloComputationProto), c.id ≠ (7 : Nat)) ∧
    GetShardedProgramShapes specTile ⟨[⟨4, 9, []⟩], 7, 2⟩ =
      .error (if (2 : Nat) = 0 then Err.missingRoot else Err.missingParameter 0) :=
  ⟨by decide, missing_entry_behavior specTile ⟨[⟨4, 9, []⟩], 7, 2⟩ (by decide)⟩

/-! ### Claim C9 -/

/-- C9: a parameter instruction with an in-range index never raises a
duplicate error: appended after any successfully scanned prefix — in
particular one that already filled its slot — it silently overwrites the
slot with its own resolved shape and the scan proceeds normally. -/
theorem duplicate_parameter_overwrites (tile : TileFn) (psize rootId : Nat)
    (pre : List HloInstructionProto) (p : HloInstructionProto)
    (args : List Shape) (res : Shape) (sh : Shape)
    (hpre : pre.foldlM (scanInstruction tile psize rootId)
        (List.replicate psize defaultShape, defaultShape) = .ok (args, res))
    (hop : p.opcode = parameterOpcode)
    (hn : p.parameterNumber < psize)
    (hroot : p.id ≠ rootId)
    (hsh : GetShardedShapeOfInstr tile p = .ok sh) :
    (pre ++ [p]).foldlM (scanInstruction tile psize rootId)
        (List.replicate psize defaultShape, defaultShape) =
      .ok (args.set p.parameterNumber sh, res) := by
  rw [List.foldlM_append, hpre, except_bind_ok, List.foldlM_cons]
  have hstep : scanInstruction tile psize rootId (args, res) p =
      .ok (args.set p.parameterNumber sh, res) := by
    unfold scanInstruction paramScan
    rw [if_pos hop, if_neg (Nat.not_le.2 hn), hsh]
    simp [hroot]
  rw [hstep, except_bind_ok]
  rfl

/-- Witness for C9: a duplicate parameter index 0 whose second occurrence
overwrites the first. -/
theorem duplicate_parameter_overwrites_witness :
    ([⟨1, "parameter", Shape.array .f32 [5] none, none, 0⟩,
      ⟨2, "add", Shape.array .f32 [7] none, none, 0⟩] :
        List HloInstructionProto).foldlM (scanInstruction specTile 1 2)
        (List.replicate 1 defaultShape, defaultShape) =
      .ok ([Shape.array .f32 [5] none], Shape.array .f32 [7] none) ∧
    (([⟨1, "parameter", Shape.array .f32 [5] none, none, 0⟩,
      ⟨2, "add", Shape.array .f32 [7] none, none, 0⟩] :
        List HloInstructionProto) ++
        ([⟨3, "parameter", Shape.array .s32 [9] none, none, 0⟩] :
          List HloInstructionProto)).foldlM
        (scanInstruction specTile 1 2)
        (List.replicate 1 defaultShape, defaultShape) =
      .ok (([Shape.array .f32 [5] none]).set 0 (Shape.array .s32 [9] none),
        Shape.array .f32 [7] none) :=
  ⟨by decide,
    duplicate_parameter_overwrites specTile 1 2
      ([⟨1, "parameter", Shape.array .f32 [5] none, none, 0⟩,
        ⟨2, "add", Shape.array .f32 [7] none, none, 0⟩] : List HloInstructionProto)
      ⟨3, "parameter", Shape.array .s32 [9] none, none, 0⟩
      [Shape.array .f32 [5] none] (Shape.array .f32 [7] none)
      (Shape.array .s32 [9] none) (by decide) rfl (by decide) (by decide) (by decide)⟩

/-! ### Claim C5 -/

/-- C5 counterexample: two instructions share the declared root id, yet
the analysis fails with an invalid-parameter-index error raised before the
second root-id instruction is reached, not with `multipleRoots`. -/
theorem uniqueness_law_counterexample :
    2 ≤ rootCount 3 [⟨1, "parameter", Shape.array .f32 [2] none, none, 5⟩,
      ⟨3, "add", Shape.array .f32 [2] none, none, 0⟩,
      ⟨3, "mul", Shape.array .f32 [2] none, none, 0⟩] ∧
    GetShardedProgramShapes specTile
        ⟨[⟨7, 3, [⟨1, "parameter", Shape.array .f32 [2] none, none, 5⟩,
          ⟨3, "add", Shape.array .f32 [2] none, none, 0⟩,
          ⟨3, "mul", Shape.array .f32 [2] none, none, 0⟩]⟩], 7, 1⟩ =
      .error (.invalidParameterIndex 5 1) ∧
    GetShardedProgramShapes specTile
        ⟨[⟨7, 3, [⟨1, "parameter", Shape.array .f32 [2] none, none, 5⟩,
          ⟨3, "add", Shape.array .f32 [2] none, none, 0⟩,
          ⟨3, "mul", Shape.array .f32 [2] none, none, 0⟩]⟩], 7, 1⟩ ≠
      .error .multipleRoots := by decide

/-- C5 amended: provided every parameter instruction's index is in range
and every parameter or root instruction resolves to a valid sharded
shape, the analysis fails with `multipleRoots` iff two or more
instructions of the entry computation carry the declared root id. -/
theorem uniqueness_law_amended (tile : TileFn) (prog : XlaComputation)
    (comp : HloComputationProto)
    (hone : prog.computations.filter (fun c => c.id = prog.entryComputationId) = [comp])
    (hp : ∀ p ∈ comp.instructions, isParam p = true →
      p.parameterNumber < prog.parametersSize)
    (hr : ∀ p ∈ comp.instructions, (isParam p = true ∨ p.id = comp.rootId) →
      resolvesValidly tile p = true) :
    (GetShardedProgramShapes tile prog = .error .multipleRoots ↔
      2 ≤ rootCount comp.rootId comp.instructions) := by
  rw [program_result_eq tile prog comp hone]
  have hdef : (if defaultShape.elementType = ElemTy.invalid then 0 else 1) = 0 := rfl
  constructor
  · intro h
    by_contra hlt
    push_neg at hlt
    rw [scan_fold_ok tile prog.parametersSize comp.rootId comp.instructions _ _ hp hr
      (by rw [hdef]; omega)] at h
    cases hfi : firstInvalidIdx (scanArgsModel tile
        (List.replicate prog.parametersSize defaultShape) comp.instructions) with
    | some i => simp [hfi] at h
    | none =>
      by_cases hres : (scanResModel tile comp.rootId defaultShape
          comp.instructions).elementType = ElemTy.invalid
      · simp [hfi, hres] at h
      · simp [hfi, hres] at h
  · intro h2
    rw [scan_fold_multiroot tile prog.parametersSize comp.rootId comp.instructions _ _
      hp hr (by rw [hdef]; omega)]

/-- Witness for the amended C5: a program with two root-id instructions
and no parameters. -/
theorem uniqueness_law_amended_witness :
    (GetShardedProgramShapes specTile
        ⟨[⟨7, 3, [⟨3, "add", Shape.array .f32 [2] none, none, 0⟩,
          ⟨3, "mul", Shape.array .f32 [2] none, none, 0⟩]⟩], 7, 0⟩ =
      .error .multipleRoots ↔
      2 ≤ rootCount 3 [⟨3, "add", Shape.array .f32 [2] none, none, 0⟩,
        ⟨3, "mul", Shape.array .f32 [2] none, none, 0⟩]) :=
  uniqueness_law_amended specTile
    ⟨[⟨7, 3, [⟨3, "add", Shape.array .f32 [2] none, none, 0⟩,
      ⟨3, "mul", Shape.array .f32 [2] none, none, 0⟩]⟩], 7, 0⟩
    ⟨7, 3, [⟨3, "add", Shape.array .f32 [2] none, none, 0⟩,
      ⟨3, "mul", Shape.array .f32 [2] none, none, 0⟩]⟩
    (by decide) (by decide) (by decide)

/-! ### Claim C4 -/

/-- C4 counterexample: the declared count is 2 and no parameter
instruction has index 1, yet the analysis does not fail with
`missingParameter 1` — it reports the first unfilled slot 0. -/
theorem completeness_law_counterexample :
    (∀ p ∈ ([⟨9, "tanh", Shape.array .f32 [2] none, none, 0⟩] :
        List HloInstructionProto), isParamIdx 1 p = false) ∧
    GetShardedProgramShapes specTile
        ⟨[⟨7, 9, [⟨9, "tanh", Shape.array .f32 [2] none, none, 0⟩]⟩], 7, 2⟩ =
      .error (.missingParameter 0) ∧
    GetShardedProgramShapes specTile
        ⟨[⟨7, 9, [⟨9, "tanh", Shape.array .f32 [2] none, none, 0⟩]⟩], 7, 2⟩ ≠
      .error (.missingParameter 1) := by decide

/-- C4 amended: provided parameter indices are in range, parameter and
root instructions resolve to valid sharded shapes, and at most one
instruction carries the root id, the analysis fails with
`missingParameter i` iff `i` is the smallest index below the declared
count for which the entry computation has no parameter instruction. -/
theorem completeness_law_amended (tile : TileFn) (prog : XlaComputation)
    (comp : HloComputationProto)
    (hone : prog.computations.filter (fun c => c.id = prog.entryComputationId) = [comp])
    (hp : ∀ p ∈ comp.instructions, isParam p = true →
      p.parameterNumber < prog.parametersSize)
    (hr : ∀ p ∈ comp.instructions, (isParam p = true ∨ p.id = comp.rootId) →
      resolvesValidly tile p = true)
    (hroot : rootCount comp.rootId comp.instructions ≤ 1) (i : Nat) :
    (GetShardedProgramShapes tile prog = .error (.missingParameter i) ↔
      (i < prog.parametersSize ∧
        (∀ p ∈ comp.instructions, isParamIdx i p = false) ∧
        ∀ j < i, ∃ p ∈ comp.instructions, isParamIdx j p = true)) := by
  rw [program_result_eq tile prog comp hone]
  have hdef : (if defaultShape.elementType = ElemTy.invalid then 0 else 1) = 0 := rfl
  rw [scan_fold_ok tile prog.parametersSize comp.rootId comp.instructions _ _ hp hr
    (by rw [hdef]; omega)]
  set A := scanArgsModel tile (List.replicate prog.parametersSize defaultShape)
    comp.instructions with hA
  set R := scanResModel tile comp.rootId defaultShape comp.instructions with hR
  have hlen : A.length = prog.parametersSize := by
    rw [hA, scanArgsModel_length]
    exact List.length_replicate _ _
  have hget : ∀ j : Nat, A.get? j =
      (match lastParam j comp.instructions with
       | some p => some (resolvedShape tile p)
       | none => (List.replicate prog.parametersSize defaultShape).get? j) := by
    intro j
    rw [hA]
    exact scanArgsModel_get tile comp.instructions _ j
      (fun p hpl hpp => by
        rw [List.length_replicate]
        exact hp p hpl hpp)
  have hslot : ∀ j : Nat, j < prog.parametersSize →
      ((∃ s, A.get? j = some s ∧ s.elementType = .invalid) ↔
        ∀ p ∈ comp.instructions, isParamIdx j p = false) := by
    intro j hj
    rw [hget j]
    cases hlp : lastParam j comp.instructions with
    | some p =>
      obtain ⟨hpl, hpi⟩ := lastParam_mem hlp
      have hparam : isParam p = true := by
        unfold isParamIdx at hpi
        rw [Bool.and_eq_true] at hpi
        exact hpi.1
      have hvalid := (resolvesValidly_ok tile p (hr p hpl (Or.inl hparam))).2
      constructor
      · rintro ⟨s, hs, hsv⟩
        injection hs with hs
        subst hs
        exact absurd hsv hvalid
      · intro hall
        have hfa := hall p hpl
        rw [hfa] at hpi
        cases hpi
    | none =>
      constructor
      · intro _
        exact lastParam_eq_none_iff.1 hlp
      · intro _
        refine ⟨defaultShape, ?_, rfl⟩
        rw [List.get?_eq_getElem?, List.getElem?_replicate, if_pos hj]
  constructor
  · intro h
    cases hfi : firstInvalidIdx A with
    | none =>
      by_cases hres : R.elementType = ElemTy.invalid
      · simp [hfi, hres] at h
      · simp [hfi, hres] at h
    | some i' =>
      have hii : i' = i := by
        simp [hfi] at h
        exact h
      subst hii
      obtain ⟨⟨s, hsin, hsv⟩, hbefore⟩ := (firstInvalidIdx_eq_some_iff A i').1 hfi
      have hilt : i' < prog.parametersSize := by
        rw [← hlen]
        by_contra hge
        push_neg at hge
        rw [List.get?_eq_getElem?, List.getElem?_eq_none (by omega)] at hsin
        cases hsin
      refine ⟨hilt, (hslot i' hilt).1 ⟨s, hsin, hsv⟩, ?_⟩
      intro j hj
      by_contra hnone
      push_neg at hnone
      have hjp : j < prog.parametersSize := by omega
      have hinv : ∃ s, A.get? j = some s ∧ s.elementType = .invalid := by
        apply (hslot j hjp).2
        intro p hpl
        have := hnone p hpl
        simpa using this
      obtain ⟨t, htj, htv⟩ := hinv
      exact absurd htv (hbefore j hj t htj)
  · rintro ⟨hilt, hnoparam, hfilled⟩
    have hfi : firstInvalidIdx A = some i := by
      apply (firstInvalidIdx_eq_some_iff A i).2
      refine ⟨(hslot i hilt).2 hnoparam, ?_⟩
      intro j hj t htj htv
      obtain ⟨p, hpl, hpi⟩ := hfilled j hj
      have hjp : j < prog.parametersSize := by omega
      have hall := (hslot j hjp).1 ⟨t, htj, htv⟩
      have := hall p hpl
      rw [this] at hpi
      cases hpi
    simp [hfi]

/-- Witness for the amended C4: declared count 2, only parameter 0
present, analysis fails with `missingParameter 1`. -/
theorem completeness_law_amended_witness :
    (GetShardedProgramShapes specTile
        ⟨[⟨7, 5, [⟨1, "parameter", Shape.array .f32 [2] none, none, 0⟩,
          ⟨5, "add", Shape.array .f32 [3] none, none, 0⟩]⟩], 7, 2⟩ =
      .error (.missingParameter 1) ↔
      (1 < 2 ∧
        (∀ p ∈ ([⟨1, "parameter", Shape.array .f32 [2] none, none, 0⟩,
          ⟨5, "add", Shape.array .f32 [3] none, none, 0⟩] :
            List HloInstructionProto), isParamIdx 1 p = false) ∧
        ∀ j < 1, ∃ p ∈ ([⟨1, "parameter", Shape.array .f32 [2] none, none, 0⟩,
          ⟨5, "add", Shape.array .f32 [3] none, none, 0⟩] :
            List HloInstructionProto), isParamIdx j p = true)) :=
  completeness_law_amended specTile
    ⟨[⟨7, 5, [⟨1, "parameter", Shape.array .f32 [2] none, none, 0⟩,
      ⟨5, "add", Shape.array .f32 [3] none, none, 0⟩]⟩], 7, 2⟩
    ⟨7, 5, [⟨1, "parameter", Shape.array .f32 [2] none, none, 0⟩,
      ⟨5, "add", Shape.array .f32 [3] none, none, 0⟩]⟩
    (by decide) (by decide) (by decide) (by decide) 1

/-! ### Claim C7 -/

/-- C7 counterexample: two orderings of the same instruction multiset on
which the analysis succeeds with different results — two parameter
instructions share index 0, and the later-scanned one wins the slot. -/
theorem order_invariance_counterexample :
    ([⟨1, "parameter", Shape.array .f32 [2] none, none, 0⟩,
      ⟨2, "parameter", Shape.array .f32 [3] none, none, 0⟩,
      ⟨5, "add", Shape.array .f32 [4] none, none, 0⟩] :
        List HloInstructionProto).Perm
      [⟨2, "parameter", Shape.array .f32 [3] none, none, 0⟩,
        ⟨1, "parameter", Shape.array .f32 [2] none, none, 0⟩,
        ⟨5, "add", Shape.array .f32 [4] none, none, 0⟩] ∧
    GetShardedProgramShapes specTile
        ⟨[⟨7, 5, [⟨1, "parameter", Shape.array .f32 [2] none, none, 0⟩,
          ⟨2, "parameter", Shape.array .f32 [3] none, none, 0⟩,
          ⟨5, "add", Shape.array .f32 [4] none, none, 0⟩]⟩], 7, 1⟩ =
      .ok ([Shape.array .f32 [3] none], Shape.array .f32 [4] none) ∧
    GetShardedProgramShapes specTile
        ⟨[⟨7, 5, [⟨2, "parameter", Shape.array .f32 [3] none, none, 0⟩,
          ⟨1, "parameter", Shape.array .f32 [2] none, none, 0⟩,
          ⟨5, "add", Shape.array .f32 [4] none, none, 0⟩]⟩], 7, 1⟩ =
      .ok ([Shape.array .f32 [2] none], Shape.array .f32 [4] none) ∧
    (([Shape.array .f32 [3] none], Shape.array .f32 [4] none) :
        List Shape × Shape) ≠
      ([Shape.array .f32 [2] none], Shape.array .f32 [4] none) :=
  ⟨List.Perm.swap _ _ _, by decide, by decide, by decide⟩

/-- C7 amended: with pairwise-distinct parameter indices and validly
resolving parameter and root instructions, any two orderings of the entry
computation's instruction list on which the analysis succeeds produce the
same argument shapes and result shape. -/
theorem order_invariance_amended (tile : TileFn) (prog1 prog2 : XlaComputation)
    (comp1 comp2 : HloComputationProto)
    (hone1 : prog1.computations.filter (fun c => c.id = prog1.entryComputationId) = [comp1])
    (hone2 : prog2.computations.filter (fun c => c.id = prog2.entryComputationId) = [comp2])
    (hpsize : prog1.parametersSize = prog2.parametersSize)
    (hroot : comp1.rootId = comp2.rootId)
    (hperm : comp1.instructions.Perm comp2.instructions)
    (hp : ∀ p ∈ comp1.instructions, isParam p = true →
      p.parameterNumber < prog1.parametersSize)
    (hr : ∀ p ∈ comp1.instructions, (isParam p = true ∨ p.id = comp1.rootId) →
      resolvesValidly tile p = true)
    (hnodup : ((comp1.instructions.filter isParam).map
      (fun p => p.parameterNumber)).Nodup)
    (r1 r2 : List Shape × Shape)
    (h1 : GetShardedProgramShapes tile prog1 = .ok r1)
    (h2 : GetShardedProgramShapes tile prog2 = .ok r2) :
    r1 = r2 := by
  have hp2 : ∀ p ∈ comp2.instructions, isParam p = true →
      p.parameterNumber < prog2.parametersSize := by
    intro p hpl hpp
    rw [← hpsize]
    exact hp p (hperm.mem_iff.2 hpl) hpp
  have hr2 : ∀ p ∈ comp2.instructions, (isParam p = true ∨ p.id = comp2.rootId) →
      resolvesValidly tile p = true := by
    intro p hpl hcase
    refine hr p (hperm.mem_iff.2 hpl) ?_
    rw [hroot]
    exact hcase
  have hcount_eq : rootCount comp1.rootId comp1.instructions =
      rootCount comp2.rootId comp2.instructions := by
    unfold rootCount
    rw [hroot]
    exact hperm.countP_eq _
  have hdef : (if defaultShape.elementType = ElemTy.invalid then 0 else 1) = 0 := rfl
  have hle1 : rootCount comp1.rootId comp1.instructions ≤ 1 := by
    by_contra hgt
    push_neg at hgt
    rw [program_result_eq tile prog1 comp1 hone1,
      scan_fold_multiroot tile prog1.parametersSize comp1.rootId comp1.instructions _ _
        hp hr (by rw [hdef]; omega)] at h1
    cases h1
  rw [program_result_eq tile prog1 comp1 hone1,
    scan_fold_ok tile prog1.parametersSize comp1.rootId comp1.instructions _ _ hp hr
      (by rw [hdef]; omega)] at h1
  rw [program_result_eq tile prog2 comp2 hone2,
    scan_fold_ok tile prog2.parametersSize comp2.rootId comp2.instructions _ _ hp2 hr2
      (by rw [hdef, ← hcount_eq]; omega)] at h2
  set A1 := scanArgsModel tile (List.replicate prog1.parametersSize defaultShape)
    comp1.instructions with hA1
  set R1 := scanResModel tile comp1.rootId defaultShape comp1.instructions with hR1
  set A2 := scanArgsModel tile (List.replicate prog2.parametersSize defaultShape)
    comp2.instructions with hA2
  set R2 := scanResModel tile comp2.rootId defaultShape comp2.instructions with hR2
  have hx1 : r1 = (A1, R1) ∧ R1.elementType ≠ ElemTy.invalid := by
    cases hfi : firstInvalidIdx A1 with
    | some i => simp [hfi] at h1
    | none =>
      by_cases hres : R1.elementType = ElemTy.invalid
      · simp [hfi, hres] at h1
      · simp [hfi, hres] at h1
        exact ⟨h1.symm, hres⟩
  have hx2 : r2 = (A2, R2) ∧ R2.elementType ≠ ElemTy.invalid := by
    cases hfi : firstInvalidIdx A2 with
    | some i => simp [hfi] at h2
    | none =>
      by_cases hres : R2.elementType = ElemTy.invalid
      · simp [hfi, hres] at h2
      · simp [hfi, hres] at h2
        exact ⟨h2.symm, hres⟩
  obtain ⟨hr1eq, hv1⟩ := hx1
  obtain ⟨hr2eq, hv2⟩ := hx2
  have hAeq : A1 = A2 := by
    apply List.ext_get?
    intro n
    have hg1 : A1.get? n =
        (match lastParam n comp1.instructions with
         | some p => some (resolvedShape tile p)
         | none => (List.replicate prog1.parametersSize defaultShape).get? n) := by
      rw [hA1]
      exact scanArgsModel_get tile comp1.instructions _ n
        (fun p hpl hpp => by
          rw [List.length_replicate]
          exact hp p hpl hpp)
    have hg2 : A2.get? n =
        (match lastParam n comp2.instructions with
         | some p => some (resolvedShape tile p)
         | none => (List.replicate prog2.parametersSize defaultShape).get? n) := by
      rw [hA2]
      exact scanArgsModel_get tile comp2.instructions _ n
        (fun p hpl hpp => by
          rw [List.length_replicate]
          exact hp2 p hpl hpp)
    rw [hg1, hg2, lastParam_perm_eq comp1.instructions comp2.instructions hperm hnodup n,
      hpsize]
  have hReq : R1 = R2 := by
    have hf1 : ∃ rt, comp1.instructions.find? (fun p => p.id = comp1.rootId) = some rt := by
      cases hf : comp1.instructions.find? (fun p => p.id = comp1.rootId) with
      | some rt => exact ⟨rt, rfl⟩
      | none =>
        exfalso
        apply hv1
        rw [hR1]
        unfold scanResModel
        rw [hf]
        rfl
    obtain ⟨rt1, hrt1⟩ := hf1
    have hf2 : ∃ rt, comp2.instructions.find? (fun p => p.id = comp2.rootId) = some rt := by
      cases hf : comp2.instructions.find? (fun p => p.id = comp2.rootId) with
      | some rt => exact ⟨rt, rfl⟩
      | none =>
        exfalso
        apply hv2
        rw [hR2]
        unfold scanResModel
        rw [hf]
        rfl
    obtain ⟨rt2, hrt2⟩ := hf2
    have hmem1 : rt1 ∈ comp1.instructions := List.mem_of_find?_eq_some hrt1
    have hmem2 : rt2 ∈ comp2.instructions := List.mem_of_find?_eq_some hrt2
    have hprt1 := List.find?_some hrt1
    have hprt2 := List.find?_some hrt2
    have hrteq : rt1 = rt2 := by
      by_contra hne
      have h2c : 2 ≤ comp2.instructions.countP (fun p => decide (p.id = comp2.rootId)) := by
        apply two_le_countP _ comp2.instructions rt1 rt2 (hperm.mem_iff.1 hmem1) hmem2 hne
        · rw [← hroot]
          exact hprt1
        · exact hprt2
      have hge : 2 ≤ rootCount comp2.rootId comp2.instructions := h2c
      rw [← hcount_eq] at hge
      omega
    rw [hR1, hR2]
    unfold scanResModel
    rw [hrt1, hrt2, hrteq]
  rw [hr1eq, hr2eq, hAeq, hReq]

/-- Witness for the amended C7: a three-instruction computation scanned
in two different orders, both succeeding with the same result. -/
theorem order_invariance_amended_witness :
    (([Shape.array .f32 [2] none, Shape.array .s32 [3] none],
        Shape.array .f32 [4] none) : List Shape × Shape) =
      ([Shape.array .f32 [2] none, Shape.array .s32 [3] none],
        Shape.array .f32 [4] none) :=
  order_invariance_amended specTile
    ⟨[⟨7, 5, [⟨1, "parameter", Shape.array .f32 [2] none, none, 0⟩,
      ⟨2, "parameter", Shape.array .s32 [3] none, none, 1⟩,
      ⟨5, "add", Shape.array .f32 [4] none, none, 0⟩]⟩], 7, 2⟩
    ⟨[⟨7, 5, [⟨5, "add", Shape.array .f32 [4] none, none, 0⟩,
      ⟨2, "parameter", Shape.array .s32 [3] none, none, 1⟩,
      ⟨1, "parameter", Shape.array .f32 [2] none, none, 0⟩]⟩], 7, 2⟩
    ⟨7, 5, [⟨1, "parameter", Shape.array .f32 [2] none, none, 0⟩,
      ⟨2, "parameter", Shape.array .s32 [3] none, none, 1⟩,
      ⟨5, "add", Shape.array .f32 [4] none, none, 0⟩]⟩
    ⟨7, 5, [⟨5, "add", Shape.array .f32 [4] none, none, 0⟩,
      ⟨2, "parameter", Shape.array .s32 [3] none, none, 1⟩,
      ⟨1, "parameter", Shape.array .f32 [2] none, none, 0⟩]⟩
    (by decide) (by decide) rfl rfl
    (List.reverse_perm _).symm
    (by decide) (by decide) (by decide)
    ([Shape.array .f32 [2] none, Shape.array .s32 [3] none], Shape.array .f32 [4] none)
    ([Shape.array .f32 [2] none, Shape.array .s32 [3] none], Shape.array .f32 [4] none)
    (by decide) (by decide)

end Xla
